import Mathlib

/-!
Verification of the streaming chat session engine of this repository.

The embedded code comes from two places:
 * the local-storage session store (`StorageService` in
   `frontend/src/services/storage.ts`: `saveChatHistory`, `loadSession`,
   `deleteSession`, `getChatHistoryList`, `formatTimestamp`), and
 * the SSE streaming loop of `handleSend` in `ChatInterface.tsx`.

JavaScript platform builtins that the code calls (`Date`,
`JSON.stringify`/`JSON.parse` restricted to the wire shapes,
`String.prototype.split`/`trim`, `Array.prototype.sort`) are modelled from
their ECMAScript semantics.  A JS `Date` is an integer count of
milliseconds since the epoch; `Date.prototype.toISOString` renders the
proleptic-Gregorian UTC fields with millisecond precision and parsing an
ISO string recombines exactly those fields, so an ISO-8601 timestamp
string is represented here by its field record `ISOFields` (the decimal
digit rendering of the fields is injective and is elided).
-/

/-- Day number (days since 1970-01-01) to proleptic-Gregorian
(year, month, day), modelling the ECMAScript `YearFromTime` /
`MonthFromTime` / `DateFromTime` decomposition used by
`Date.prototype.toISOString`.  The decomposition walks down the
400-year era, the century, the 4-year cycle and the year, with the
final unit of each level capped, and then splits the March-based day
of year into month and day. -/
def civilFromDays (z : Int) : Int × Int × Int :=
  let doe0 := z + 719468
  let era := doe0 / 146097
  let doe := doe0 % 146097
  let c := min (doe / 36524) 3
  let rem1 := doe - 36524 * c
  let q := rem1 / 1461
  let rem2 := rem1 - 1461 * q
  let r := min (rem2 / 365) 3
  let doy := rem2 - 365 * r
  let yoe := 100 * c + 4 * q + r
  let mp := (5 * doy + 2) / 153
  let d := doy - (153 * mp + 2) / 5 + 1
  let m := if mp < 10 then mp + 3 else mp - 9
  (yoe + era * 400 + (if m ≤ 2 then 1 else 0), m, d)

/-- Proleptic-Gregorian (year, month, day) to day number since the
epoch, modelling the ECMAScript `MakeDay` operation used when a parsed
ISO-8601 date string is turned back into a time value. -/
def daysFromCivil (y m d : Int) : Int :=
  let y' := if m ≤ 2 then y - 1 else y
  let era := y' / 400
  let yoe := y' - era * 400
  let doy := (153 * (if m > 2 then m - 3 else m + 9) + 2) / 5 + d - 1
  let doe := yoe * 365 + yoe / 4 - yoe / 100 + doy
  era * 146097 + doe - 719468

/-- Range and reconstruction facts for the within-era cascade of
`civilFromDays`: the day of year is in `[0, 365]`, the year of era is
in `[0, 399]`, and the start-of-year day count used by `daysFromCivil`
recombines with the day of year to the original day of era. -/
lemma cascade_facts (doe c rem1 q rem2 r doy yoe : Int)
    (hdoe0 : 0 ≤ doe) (hdoe1 : doe ≤ 146096)
    (hc : c = min (doe / 36524) 3) (h2 : rem1 = doe - 36524 * c)
    (hq : q = rem1 / 1461) (h4 : rem2 = rem1 - 1461 * q)
    (hr : r = min (rem2 / 365) 3) (h6 : doy = rem2 - 365 * r)
    (hy : yoe = 100 * c + 4 * q + r) :
    0 ≤ doy ∧ doy ≤ 365 ∧ 0 ≤ yoe ∧ yoe ≤ 399 ∧
      yoe * 365 + yoe / 4 - yoe / 100 + doy = doe := by
  rw [min_def] at hc hr
  have hcb : 0 ≤ c ∧ c ≤ 3 := by split at hc <;> omega
  have hrem1b : 0 ≤ rem1 ∧ rem1 ≤ 36524 := by split at hc <;> omega
  have hqb : 0 ≤ q ∧ q ≤ 24 := by omega
  have hrem2b : 0 ≤ rem2 ∧ rem2 ≤ 1460 := by omega
  have hrb : 0 ≤ r ∧ r ≤ 3 := by split at hr <;> omega
  have hdoyb : 0 ≤ doy ∧ doy ≤ 365 := by split at hr <;> omega
  have hf : yoe / 4 = 25 * c + q := by omega
  have hg : yoe / 100 = c := by omega
  refine ⟨hdoyb.1, hdoyb.2, by omega, by omega, ?_⟩
  rw [hf, hg]
  omega

/-- Reconstruction of the day of year from the month and day computed
by the March-based month split of `civilFromDays`. -/
lemma month_facts (doy mp d m : Int) (h0 : 0 ≤ doy) (h1 : doy ≤ 365)
    (hmp : mp = (5 * doy + 2) / 153) (hd : d = doy - (153 * mp + 2) / 5 + 1)
    (hm : m = if mp < 10 then mp + 3 else mp - 9) :
    (153 * (if m > 2 then m - 3 else m + 9) + 2) / 5 + d - 1 = doy := by
  split at hm <;> split <;> omega

/-- Day-number round trip: converting a day count to a Gregorian civil
date and back is the identity, for every day count. -/
theorem civil_roundtrip (z : Int) :
    daysFromCivil (civilFromDays z).1 (civilFromDays z).2.1 (civilFromDays z).2.2 = z := by
  simp only [civilFromDays, daysFromCivil]
  set doe0 := z + 719468 with hdoe0def
  set era := doe0 / 146097 with heradef
  set doe := doe0 % 146097 with hdoedef
  set c := min (doe / 36524) 3 with hcdef
  set rem1 := doe - 36524 * c with hrem1def
  set q := rem1 / 1461 with hqdef
  set rem2 := rem1 - 1461 * q with hrem2def
  set r := min (rem2 / 365) 3 with hrdef
  set doy := rem2 - 365 * r with hdoydef
  set yoe := 100 * c + 4 * q + r with hyoedef
  set mp := (5 * doy + 2) / 153 with hmpdef
  set d := doy - (153 * mp + 2) / 5 + 1 with hddef
  set m := (if mp < 10 then mp + 3 else mp - 9) with hmdef
  have hdoe_lb : 0 ≤ doe := Int.emod_nonneg _ (by norm_num)
  have hdoe_ub : doe ≤ 146096 := by
    have := Int.emod_lt_of_pos doe0 (b := 146097) (by norm_num)
    omega
  clear_value doe0 era doe c rem1 q rem2 r doy yoe mp d m
  obtain ⟨hdoy0, hdoy1, hyoe0, hyoe1, hsum⟩ :=
    cascade_facts doe c rem1 q rem2 r doy yoe hdoe_lb hdoe_ub hcdef hrem1def hqdef
      hrem2def hrdef hdoydef hyoedef
  have hback := month_facts doy mp d m hdoy0 hdoy1 hmpdef hddef hmdef
  have hz : doe0 = 146097 * era + doe := by omega
  have hera2 : (yoe + era * 400) / 400 = era := by omega
  clear hcdef hrem1def hqdef hrem2def hrdef hdoydef hyoedef hmpdef hddef hmdef
  clear heradef hdoedef
  by_cases hle : m ≤ 2
  · simp only [if_pos hle]
    have e1 : yoe + era * 400 + 1 - 1 = yoe + era * 400 := by ring
    rw [e1, hera2]
    have e2 : yoe + era * 400 - era * 400 = yoe := by ring
    rw [e2, hback]
    omega
  · simp only [if_neg hle]
    have e1 : yoe + era * 400 + 0 = yoe + era * 400 := by ring
    rw [e1, hera2]
    have e2 : yoe + era * 400 - era * 400 = yoe := by ring
    rw [e2, hback]
    omega

/-- Field record of an ISO-8601 UTC timestamp string
`YYYY-MM-DDTHH:MM:SS.mmmZ` as produced by `Date.prototype.toISOString`.
The string is represented by the fields it displays; the decimal
rendering of the fields is injective and elided. -/
structure ISOFields where
  year : Int
  month : Int
  day : Int
  hour : Int
  minute : Int
  second : Int
  ms : Int
deriving DecidableEq

/-- Model of `Date.prototype.toISOString`: split a millisecond time
value into ISO-8601 UTC fields (ECMAScript `Day`, `msFromTime`,
`HourFromTime`, `MinFromTime`, `SecFromTime` plus the civil-date
decomposition).  Integer `/` and `%` on `Int` are Euclidean, which for
the positive divisors used here coincides with the floor semantics of
the ECMAScript operations. -/
def msToFields (t : Int) : ISOFields :=
  let days := t / 86400000
  let tod := t % 86400000
  let ymd := civilFromDays days
  { year := ymd.1, month := ymd.2.1, day := ymd.2.2
    hour := tod / 3600000
    minute := tod % 3600000 / 60000
    second := tod % 60000 / 1000
    ms := tod % 1000 }

/-- Model of parsing an ISO-8601 UTC timestamp with `new Date(s)`:
recombine the displayed fields into a millisecond time value
(ECMAScript `MakeDay` / `MakeTime` / `MakeDate`). -/
def fieldsToMs (f : ISOFields) : Int :=
  daysFromCivil f.year f.month f.day * 86400000 +
    f.hour * 3600000 + f.minute * 60000 + f.second * 1000 + f.ms

/-- Millisecond time values survive the ISO-8601 serialize/parse round
trip losslessly. -/
theorem fieldsToMs_msToFields (t : Int) : fieldsToMs (msToFields t) = t := by
  simp only [msToFields, fieldsToMs]
  have hc := civil_roundtrip (t / 86400000)
  rw [hc]
  omega

/-- One chat turn, mirroring the frontend `Message` type.  A JS `Date`
is modelled as an integer millisecond time value; the numeric message
id produced by `Date.now().toString()` is modelled by its integer value
(the decimal rendering is injective).  The `sources` payload is opaque
to the embedded code (it is only stored and passed through), so it is
modelled by its raw JSON array text. -/
structure Message where
  id : Int
  role : String
  content : String
  timestamp : Int
  sources : Option String
  confidence : Option Int
deriving DecidableEq

/-- Serialized form of a `Message` inside the persisted history record:
every field is carried through `JSON.stringify` unchanged except
`timestamp`, which `saveChatHistory` replaces by its
`toISOString()` rendering. -/
structure StoredMessage where
  id : Int
  role : String
  content : String
  timestamp : ISOFields
  sources : Option String
  confidence : Option Int
deriving DecidableEq

/-- Spread-and-serialize of one message in `saveChatHistory`:
`\x7b...m, timestamp: m.timestamp.toISOString()\x7d`. -/
def serializeMessage (m : Message) : StoredMessage :=
  { id := m.id, role := m.role, content := m.content
    timestamp := msToFields m.timestamp
    sources := m.sources, confidence := m.confidence }

/-- Spread-and-parse of one stored message in `loadSession`:
`\x7b...m, timestamp: new Date(m.timestamp)\x7d`. -/
def deserializeMessage (m : StoredMessage) : Message :=
  { id := m.id, role := m.role, content := m.content
    timestamp := fieldsToMs m.timestamp
    sources := m.sources, confidence := m.confidence }

/-- One persisted session record, as stored under its id inside the
`rag_chatbot_history` object. -/
structure StoredSession where
  id : String
  title : String
  timestamp : ISOFields
  messages : List StoredMessage
  lastMessage : Option String
deriving DecidableEq

/-- The persisted history object.  A JavaScript object with string
(non-index) keys enumerates its properties in key-insertion order, so
it is modelled as an association list in insertion order; assigning to
an existing key keeps its position, assigning a fresh key appends. -/
abbrev HistoryStore := List (String × StoredSession)

/-- Property read `allHistory[sessionId]`. -/
def objGet (store : HistoryStore) (k : String) : Option StoredSession :=
  match store with
  | [] => none
  | (k', v) :: rest => if k' = k then some v else objGet rest k

/-- Property write `allHistory[sessionId] = record`: overwrite in place
if the key exists, append otherwise. -/
def objSet (store : HistoryStore) (k : String) (v : StoredSession) : HistoryStore :=
  match store with
  | [] => [(k, v)]
  | (k', v') :: rest =>
      if k' = k then (k', v) :: rest else (k', v') :: objSet rest k v

/-- Property removal `delete allHistory[sessionId]`: drop the entry
with the given key, keeping the order of the rest. -/
def objDelete (store : HistoryStore) (k : String) : HistoryStore :=
  match store with
  | [] => []
  | (k', v') :: rest =>
      if k' = k then objDelete rest k else (k', v') :: objDelete rest k

/-- Title derivation inside `saveChatHistory`: first user message's
content truncated to 50 characters with an ellipsis marker, or the
placeholder `New Chat`. -/
def deriveTitle (messages : List Message) : String :=
  match messages.find? (fun m => m.role = "user") with
  | some m => m.content.take 50 ++ (if m.content.length > 50 then "..." else "")
  | none => "New Chat"

/-- Model of `StorageService.saveChatHistory(sessionId, messages)`.
The parameter `now` is the millisecond value of the `new Date()` taken
for the record's `timestamp` field at save time. -/
def saveChatHistory (sessionId : String) (messages : List Message) (now : Int)
    (store : HistoryStore) : HistoryStore :=
  if messages.length = 0 then
    objDelete store sessionId
  else
    objSet store sessionId
      { id := sessionId
        title := deriveTitle messages
        timestamp := msToFields now
        messages := messages.map serializeMessage
        lastMessage := (messages.getLast?).map (fun m => m.content) }

/-- Model of `StorageService.loadSession(sessionId)`. -/
def loadSession (sessionId : String) (store : HistoryStore) : Option (List Message) :=
  match objGet store sessionId with
  | none => none
  | some s => some (s.messages.map deserializeMessage)

/-- Model of `StorageService.deleteSession(sessionId)`. -/
def deleteSession (sessionId : String) (store : HistoryStore) : HistoryStore :=
  objDelete store sessionId

lemma objGet_objSet_self (store : HistoryStore) (k : String) (v : StoredSession) :
    objGet (objSet store k v) k = some v := by
  induction store with
  | nil => simp [objGet, objSet]
  | cons e rest ih =>
      obtain ⟨k', v'⟩ := e
      by_cases h : k' = k
      · simp [objGet, objSet, h]
      · simp [objGet, objSet, h, ih]

lemma objGet_objSet_other (store : HistoryStore) (k j : String) (v : StoredSession)
    (h : k ≠ j) : objGet (objSet store k v) j = objGet store j := by
  induction store with
  | nil => simp [objGet, objSet, h]
  | cons e rest ih =>
      obtain ⟨k', v'⟩ := e
      by_cases h2 : k' = k
      · subst h2
        simp [objGet, objSet, h]
      · simp [objGet, objSet, h2, ih]

lemma objGet_objDelete_self (store : HistoryStore) (k : String) :
    objGet (objDelete store k) k = none := by
  induction store with
  | nil => simp [objGet, objDelete]
  | cons e rest ih =>
      obtain ⟨k', v'⟩ := e
      by_cases h : k' = k
      · simpa [objDelete, h] using ih
      · simpa [objDelete, objGet, h] using ih

lemma objGet_objDelete_other (store : HistoryStore) (k j : String) (h : k ≠ j) :
    objGet (objDelete store k) j = objGet store j := by
  induction store with
  | nil => simp [objDelete]
  | cons e rest ih =>
      obtain ⟨k', v'⟩ := e
      by_cases h2 : k' = k
      · have hkj : k' ≠ j := by rw [h2]; exact h
        simp [objDelete, objGet, h2, hkj, h, ih]
      · by_cases h3 : k' = j
        · simp [objDelete, objGet, h2, h3, Ne.symm h]
        · simp [objDelete, objGet, h2, h3, ih]

lemma deserialize_serialize (m : Message) :
    deserializeMessage (serializeMessage m) = m := by
  simp [serializeMessage, deserializeMessage, fieldsToMs_msToFields]

/-- C6: for every session id and every non-empty message list,
`saveChatHistory` followed by `loadSession` on the same id returns the
message list unchanged on all fields; in particular each message
timestamp survives the ISO-8601 serialize/parse round trip losslessly
to millisecond precision. -/
theorem save_then_load_identity (store : HistoryStore) (sessionId : String)
    (messages : List Message) (now : Int) (h : messages ≠ []) :
    loadSession sessionId (saveChatHistory sessionId messages now store) =
      some messages := by
  have hlen : messages.length ≠ 0 := by
    simpa [List.length_eq_zero] using h
  simp only [saveChatHistory, if_neg hlen, loadSession, objGet_objSet_self]
  simp [List.map_map, Function.comp_def, deserialize_serialize]

/-- C6 witness. -/
theorem save_then_load_identity_witness :
    ([{ id := 7, role := "user", content := "hello", timestamp := 1733300000123,
        sources := none, confidence := none }] : List Message) ≠ [] ∧
      loadSession "s1"
        (saveChatHistory "s1"
          [{ id := 7, role := "user", content := "hello", timestamp := 1733300000123,
             sources := none, confidence := none }] 1733300005000 []) =
        some [{ id := 7, role := "user", content := "hello", timestamp := 1733300000123,
                sources := none, confidence := none }] :=
  ⟨by decide, save_then_load_identity [] "s1" _ 1733300005000 (by decide)⟩

/-- C7: saving a session with an empty message list is the same store
operation as deleting the session, and a subsequent `loadSession` on
that id returns `none`; the store never holds a record with zero
messages for that id. -/
theorem save_empty_equals_delete (store : HistoryStore) (sessionId : String) (now : Int) :
    saveChatHistory sessionId [] now store = deleteSession sessionId store ∧
      loadSession sessionId (saveChatHistory sessionId [] now store) = none := by
  constructor
  · simp [saveChatHistory, deleteSession]
  · simp [saveChatHistory, loadSession, objGet_objDelete_self]

/-- C9: `deleteSession i` and `saveChatHistory i` leave the record
stored under every other id `j` unchanged. -/
theorem store_writes_are_framed (store : HistoryStore) (i j : String)
    (messages : List Message) (now : Int) (h : i ≠ j) :
    objGet (deleteSession i store) j = objGet store j ∧
      objGet (saveChatHistory i messages now store) j = objGet store j := by
  constructor
  · exact objGet_objDelete_other store i j h
  · by_cases hlen : messages.length = 0
    · simp only [saveChatHistory, if_pos hlen]
      exact objGet_objDelete_other store i j h
    · simp only [saveChatHistory, if_neg hlen]
      exact objGet_objSet_other store i j _ h

/-- C9 witness. -/
theorem store_writes_are_framed_witness :
    ("a" : String) ≠ "b" ∧
      (objGet (deleteSession "a"
          [("b", { id := "b", title := "t", timestamp := msToFields 0,
                   messages := [], lastMessage := none })]) "b" =
        objGet [("b", { id := "b", title := "t", timestamp := msToFields 0,
                        messages := [], lastMessage := none })] "b" ∧
      objGet (saveChatHistory "a"
          [{ id := 1, role := "user", content := "x", timestamp := 0,
             sources := none, confidence := none }] 0
          [("b", { id := "b", title := "t", timestamp := msToFields 0,
                   messages := [], lastMessage := none })]) "b" =
        objGet [("b", { id := "b", title := "t", timestamp := msToFields 0,
                        messages := [], lastMessage := none })] "b") :=
  ⟨by decide, store_writes_are_framed _ "a" "b" _ 0 (by decide)⟩

/-- Display label produced by `StorageService.formatTimestamp`.  The
label is a human-readable string; it is represented by its shape and
numeric payload (the rendered text is injective per shape, e.g.
`3 mins ago` or a locale date such as `12/4/2025`). -/
inductive TimeLabel where
  | justNow : TimeLabel
  | minsAgo : Int → TimeLabel
  | hoursAgo : Int → TimeLabel
  | yesterday : TimeLabel
  | daysAgo : Int → TimeLabel
  | localeDate : Int → Int → Int → TimeLabel
deriving DecidableEq

/-- Model of `StorageService.formatTimestamp`: pure function of the
current instant and the stored timestamp.  `Math.floor` of a quotient
by a positive constant is Euclidean division. -/
def formatTimestamp (now : Int) (timestamp : ISOFields) : TimeLabel :=
  let date := fieldsToMs timestamp
  let diffMs := now - date
  let diffMins := diffMs / 60000
  let diffHours := diffMs / 3600000
  let diffDays := diffMs / 86400000
  if diffMins < 1 then .justNow
  else if diffMins < 60 then .minsAgo diffMins
  else if diffHours < 24 then .hoursAgo diffHours
  else if diffDays = 1 then .yesterday
  else if diffDays < 7 then .daysAgo diffDays
  else
    let ymd := civilFromDays (date / 86400000)
    .localeDate ymd.1 ymd.2.1 ymd.2.2

/-- Time value of `new Date(label).getTime()` applied to a formatted
label: the relative labels (`Just now`, `N mins ago`, `N hours ago`,
`Yesterday`, `N days ago`) are not date syntax and parse to an Invalid
Date whose time value is NaN (`none` here); a locale date string
parses to midnight of that civil date. -/
def labelDateMs : TimeLabel → Option Int
  | .localeDate y m d => some (daysFromCivil y m d * 86400000)
  | _ => none

/-- Sidebar entry produced by `getChatHistoryList`, mirroring the
frontend `ChatHistory` type: its `timestamp` field holds the formatted
label, not the stored instant. -/
structure ChatHistory where
  id : String
  title : String
  timestamp : TimeLabel
  lastMessage : Option String
deriving DecidableEq

/-- Comparator passed to `.sort` in `getChatHistoryList`:
`new Date(b.timestamp).getTime() - new Date(a.timestamp).getTime()`.
When either side is NaN the difference is NaN, and the ECMAScript
`SortCompare` operation treats a NaN comparator result as `+0`. -/
def sortCompare (a b : ChatHistory) : Int :=
  match labelDateMs b.timestamp, labelDateMs a.timestamp with
  | some x, some y => x - y
  | _, _ => 0

/-- Insertion step of a stable comparator sort: the element goes after
every element it does not strictly precede. -/
def jsInsert (c : ChatHistory → ChatHistory → Int) (x : ChatHistory) :
    List ChatHistory → List ChatHistory
  | [] => [x]
  | y :: ys => if c x y < 0 then x :: y :: ys else y :: jsInsert c x ys

/-- Model of `Array.prototype.sort` with a comparator: a stable sort
(ES2019 requires stability), realized as insertion sort. -/
def jsSort (c : ChatHistory → ChatHistory → Int) (l : List ChatHistory) :
    List ChatHistory :=
  l.foldl (fun acc x => jsInsert c x acc) []

/-- Model of `StorageService.getChatHistoryList`: map every stored
record to a sidebar entry (formatting the timestamp into a label),
then sort with the comparator above. -/
def getChatHistoryList (store : HistoryStore) (now : Int) : List ChatHistory :=
  jsSort sortCompare
    (store.map (fun e =>
      { id := e.2.id, title := e.2.title
        timestamp := formatTimestamp now e.2.timestamp
        lastMessage := e.2.lastMessage }))

/-- Two-session store reached by saving session A at t = 0 ms and then
session B at t = 120000 ms. -/
def demoStoreC3 : HistoryStore :=
  saveChatHistory "B"
    [{ id := 2, role := "user", content := "beta", timestamp := 120000,
       sources := none, confidence := none }] 120000
    (saveChatHistory "A"
      [{ id := 1, role := "user", content := "alpha", timestamp := 0,
         sources := none, confidence := none }] 0 [])

/-- C3: evaluation of `getChatHistoryList` at the failing input.  At
t = 180000 ms both sessions format to relative labels, the comparator
parses those labels to NaN (treated as 0), and the stable sort keeps
object-insertion order: session A (lastActivity 0) is listed before
session B (lastActivity 120000), which is ascending, not descending,
in `lastActivity`. -/
theorem getChatHistoryList_not_sorted_on_failing_input :
    ((getChatHistoryList demoStoreC3 180000).map (fun e => e.id) = ["A", "B"]) ∧
      ((objGet demoStoreC3 "A").map (fun s => fieldsToMs s.timestamp) = some 0) ∧
      ((objGet demoStoreC3 "B").map (fun s => fieldsToMs s.timestamp) = some 120000) := by
  decide

/-- Typed protocol event carried by one SSE frame.  The `sources`
payload is opaque to `handleSend` (assigned and attached as-is), so it
is represented by its raw JSON array text. -/
inductive SSEData where
  | status : String → SSEData
  | chunk : String → SSEData
  | sources : String → SSEData
  | done : SSEData
  | error : String → SSEData
deriving DecidableEq

/-- Line marker checked by `line.startsWith('data: ')` and removed by
`line.slice(6)`. -/
def litData : List Char := "data: ".data

/-- Opening text of a serialized `status` event object. -/
def litStatus : List Char := "\x7b\"type\":\"status\",\"message\":\"".data

/-- Opening text of a serialized `chunk` event object. -/
def litChunk : List Char := "\x7b\"type\":\"chunk\",\"content\":\"".data

/-- Opening text of a serialized `sources` event object. -/
def litSources : List Char := "\x7b\"type\":\"sources\",\"sources\":".data

/-- Full text of a serialized `done` event object. -/
def litDone : List Char := "\x7b\"type\":\"done\"\x7d".data

/-- Opening text of a serialized `error` event object. -/
def litError : List Char := "\x7b\"type\":\"error\",\"message\":\"".data

/-- Closing quote and brace of a serialized event object. -/
def litEnd : List Char := "\"\x7d".data

/-- JSON string escaping of one character, as in `JSON.stringify`. -/
def escChar (c : Char) : List Char :=
  if c = '"' then ['\\', '"']
  else if c = '\\' then ['\\', '\\']
  else if c = '\n' then ['\\', 'n']
  else if c = '\r' then ['\\', 'r']
  else if c = '\t' then ['\\', 't']
  else [c]

/-- JSON string escaping, character by character. -/
def escapeL (l : List Char) : List Char :=
  l.foldr (fun c acc => escChar c ++ acc) []

/-- Inverse of `escChar` on the character following a backslash. -/
def unescChar (c : Char) : Option Char :=
  if c = '"' then some '"'
  else if c = '\\' then some '\\'
  else if c = 'n' then some '\n'
  else if c = 'r' then some '\r'
  else if c = 't' then some '\t'
  else none

/-- Serialized JSON text of one protocol event, the `<json>` part of a
`data: <json>` line as emitted by the server and consumed by
`JSON.parse`. -/
def renderData : SSEData → List Char
  | .status m => litStatus ++ escapeL m.data ++ litEnd
  | .chunk c => litChunk ++ escapeL c.data ++ litEnd
  | .sources s => litSources ++ s.data ++ ['\x7d']
  | .done => litDone
  | .error m => litError ++ escapeL m.data ++ litEnd

/-- Consume an expected literal from the front of the input, returning
the remainder on success. -/
def stripLit : List Char → List Char → Option (List Char)
  | [], s => some s
  | _ :: _, [] => none
  | c :: cs, x :: xs => if x = c then stripLit cs xs else none

/-- Read a JSON string body up to its closing quote, undoing escapes;
returns the decoded content and the input following the quote. -/
def takeStr : List Char → Option (List Char × List Char)
  | [] => none
  | c :: rest =>
    if c = '"' then some ([], rest)
    else if c = '\\' then
      match rest with
      | [] => none
      | e :: rest2 =>
        match unescChar e with
        | some u => (takeStr rest2).map (fun p => (u :: p.1, p.2))
        | none => none
    else (takeStr rest).map (fun p => (c :: p.1, p.2))

/-- Model of `JSON.parse` restricted to the wire event shapes followed
by the `data.type` dispatch: a payload that is the serialization of a
protocol event yields that event, anything else (malformed or
truncated frames included) yields `none` and is skipped by the caller. -/
def parseData (s : List Char) : Option SSEData :=
  match stripLit litStatus s with
  | some r =>
    match takeStr r with
    | some (m, rest) => if rest = ['\x7d'] then some (.status ⟨m⟩) else none
    | none => none
  | none =>
  match stripLit litChunk s with
  | some r =>
    match takeStr r with
    | some (m, rest) => if rest = ['\x7d'] then some (.chunk ⟨m⟩) else none
    | none => none
  | none =>
  match stripLit litSources s with
  | some r =>
    if r.getLast? = some '\x7d' then some (.sources ⟨r.dropLast⟩) else none
  | none =>
  match stripLit litDone s with
  | some r => if r = [] then some .done else none
  | none =>
  match stripLit litError s with
  | some r =>
    match takeStr r with
    | some (m, rest) => if rest = ['\x7d'] then some (.error ⟨m⟩) else none
    | none => none
  | none => none

/-- Model of `chunk.split('\n\n')`: split on every non-overlapping
occurrence of a blank-line separator, scanning left to right. -/
def split2 : List Char → List (List Char)
  | [] => [[]]
  | [c] => [[c]]
  | c :: c2 :: rest =>
    if c = '\n' ∧ c2 = '\n' then [] :: split2 rest
    else
      match split2 (c2 :: rest) with
      | [] => [[c]]
      | p :: ps => (c :: p) :: ps

/-- Mutable state of the streaming loop inside `handleSend`: the
`accumulatedContent` and `sources` local variables, the `messageAdded`
flag, and the React state the loop writes (`messages`, `isThinking`,
`thinkingStatus`). -/
structure StreamAcc where
  accumulatedContent : String
  sources : String
  messageAdded : Bool
  messages : List Message
  isThinking : Bool
  thinkingStatus : String
deriving DecidableEq

/-- Effect of one parsed protocol event on the loop state, mirroring
the `data.type` if-chain of `handleSend`.  The `error` case is a
no-op on the state: the code executes `throw new Error(data.message)`,
but that throw happens inside the `try` whose `catch` handles SSE
parse failures (`console.error('Error parsing SSE data', e)`), so it
is caught and logged there and never reaches the outer catch; the
loop then continues with unchanged state. -/
def processData (aid now : Int) (d : SSEData) (acc : StreamAcc) : StreamAcc :=
  match d with
  | .status m => { acc with thinkingStatus := m }
  | .chunk c =>
      let newContent := acc.accumulatedContent ++ c
      if acc.messageAdded then
        { acc with accumulatedContent := newContent
                   messages := acc.messages.map (fun msg =>
                     if msg.id = aid then { msg with content := newContent } else msg) }
      else
        { acc with accumulatedContent := newContent
                   messageAdded := true
                   messages := acc.messages ++
                     [{ id := aid, role := "assistant", content := newContent,
                        timestamp := now, sources := none, confidence := none }] }
  | .sources s =>
      if acc.messageAdded then
        { acc with sources := s
                   messages := acc.messages.map (fun msg =>
                     if msg.id = aid then { msg with sources := some s } else msg) }
      else { acc with sources := s }
  | .done => { acc with isThinking := false, thinkingStatus := "" }
  | .error _ => acc

/-- Effect of one line of a read: lines carrying the `data: ` marker
have their payload parsed and dispatched, parse failures are logged
and skipped, and other lines are ignored. -/
def processLine (aid now : Int) (acc : StreamAcc) (line : List Char) : StreamAcc :=
  match stripLit litData line with
  | some payload =>
    match parseData payload with
    | some d => processData aid now d acc
    | none => acc
  | none => acc

/-- Effect of one `reader.read()` result: the decoded text is split on
blank lines and each piece is processed in order.  Any frame whose
bytes are split across two reads is therefore seen as two pieces that
parse independently (the code keeps no carry-over buffer). -/
def processRead (aid now : Int) (acc : StreamAcc) (r : List Char) : StreamAcc :=
  (split2 r).foldl (processLine aid now) acc

/-- State of the chat component relevant to `handleSend`: the React
state variables plus the persisted history store written by the
save-on-change effect. -/
structure ChatState where
  messages : List Message
  input : String
  isThinking : Bool
  thinkingStatus : String
  sessionId : String
  error : Option String
  store : HistoryStore
deriving DecidableEq

/-- ASCII whitespace trimmed by `String.prototype.trim`. -/
def jsWhitespace (c : Char) : Bool :=
  c = ' ' || c = '\t' || c = '\n' || c = '\r' || c = '\x0b' || c = '\x0c'

/-- Model of `String.prototype.trim`. -/
def jsTrim (s : String) : String :=
  ⟨((s.data.dropWhile jsWhitespace).reverse.dropWhile jsWhitespace).reverse⟩

/-- The user message appended by `handleSend` at submit time: id from
`Date.now()`, the raw (untrimmed) input as content, creation time
`now`. -/
def userMessageOf (st : ChatState) (now : Int) : Message :=
  { id := now, role := "user", content := st.input, timestamp := now,
    sources := none, confidence := none }

/-- Model of `handleSend` for one submitted turn.

`reads` is the sequence of text chunks produced by successive
`reader.read()` calls until the transport reports completion, in
order; it quantifies over every way the stream's bytes can be split
across reads (at character granularity).  `readFailure` is `some m`
when opening or reading the stream rejects with an error of message
`m` (the outer catch), and `none` when the transport closes normally.
`now` is the millisecond clock value at submit time; the user message
id is `Date.now()` and the assistant message id is `Date.now() + 1`,
modelled by their integer values.

The guard `if (!input.trim() || isThinking) return` makes the call a
no-op (second component `false` means no stream was opened).
Otherwise the user's message is appended, the loop folds the reads
through the SSE decoder, the outer catch appends or synthesizes an
error message if the read failed, the `finally` clears the thinking
flags, and the save-on-change effect persists the final message list
to the session's store record. -/
def handleSend (st : ChatState) (reads : List String) (readFailure : Option String)
    (now : Int) : ChatState × Bool :=
  if jsTrim st.input = "" ∨ st.isThinking then (st, false)
  else
    let userMessage : Message := userMessageOf st now
    let aid := now + 1
    let acc0 : StreamAcc :=
      { accumulatedContent := "", sources := "[]", messageAdded := false,
        messages := st.messages ++ [userMessage],
        isThinking := true, thinkingStatus := "Initializing..." }
    let acc1 := reads.foldl (fun a r => processRead aid now a r.data) acc0
    let finalMessages :=
      match readFailure with
      | none => acc1.messages
      | some m =>
          if acc1.messageAdded then
            acc1.messages.map (fun msg =>
              if msg.id = aid then
                { msg with content := msg.content ++ "\n\nError: " ++ m }
              else msg)
          else
            acc1.messages ++
              [{ id := aid, role := "assistant",
                 content := "Error: " ++ m ++ ". Please try again.",
                 timestamp := now, sources := none, confidence := none }]
    ({ messages := finalMessages
       input := ""
       isThinking := false
       thinkingStatus := ""
       sessionId := st.sessionId
       error := readFailure
       store := saveChatHistory st.sessionId finalMessages now st.store }, true)

/-- Complete wire frame of one event: marker, JSON payload and
blank-line terminator. -/
def frameL (e : SSEData) : List Char := litData ++ renderData e ++ ['\n', '\n']

/-- Complete wire frame of one event, as a string. -/
def frameString (e : SSEData) : String := ⟨frameL e⟩

/-- Fresh component state with a pending input and no history. -/
def freshState : ChatState :=
  { messages := [], input := "ask", isThinking := false, thinkingStatus := "",
    sessionId := "s", error := none, store := [] }

/-- C1 counterexample: the single `chunk("hi")` event delivered with
its frame's bytes split across two reads is lost entirely — the final
message list holds only the user message, with no assistant content at
all — whereas the same bytes delivered in one read yield content
`hi`.  The final content therefore does not equal the concatenation of
the delivered chunk fragments for every byte split. -/
theorem chunk_lost_when_frame_split_across_reads :
    ("data: \x7b\"type\":\"ch" ++ "unk\",\"content\":\"hi\"\x7d\n\n" : String) =
        frameString (SSEData.chunk "hi") ∧
      ((handleSend freshState ["data: \x7b\"type\":\"ch", "unk\",\"content\":\"hi\"\x7d\n\n"]
          none 1000).1.messages.map (fun m => m.content) = ["ask"]) ∧
      ((handleSend freshState [frameString (SSEData.chunk "hi")]
          none 1000).1.messages.map (fun m => m.content) = ["ask", "hi"]) := by
  decide

/-- C2 counterexample: a `sources` event delivered before the first
`chunk` is silently dropped — the eventual assistant message carries
`sources = none` — whereas the same `sources` event delivered after
the first `chunk` is attached. -/
theorem sources_before_first_chunk_dropped :
    ((handleSend freshState
        [frameString (SSEData.sources "[\"a.pdf\"]") ++ frameString (SSEData.chunk "hi")]
        none 1000).1.messages.map (fun m => (m.content, m.sources)) =
      [("ask", none), ("hi", none)]) ∧
      ((handleSend freshState
          [frameString (SSEData.chunk "hi") ++ frameString (SSEData.sources "[\"a.pdf\"]")]
          none 1000).1.messages.map (fun m => (m.content, m.sources)) =
        [("ask", none), ("hi", some "[\"a.pdf\"]")]) := by
  decide

/-- C4 counterexample: when the stream emits `chunk("Partial")` and the
transport then closes normally without a `done` or `error` event, the
read loop simply ends; the resulting assistant message content is
exactly `Partial` with no appended failure notice, the turn silently
returns to idle, and the partial message is persisted as-is. -/
theorem partial_message_completes_silently_on_clean_close :
    ((handleSend freshState [frameString (SSEData.chunk "Partial")] none 1000).1.messages.map
        (fun m => m.content) = ["ask", "Partial"]) ∧
      ((handleSend freshState [frameString (SSEData.chunk "Partial")] none 1000).1.isThinking =
        false) ∧
      ((loadSession "s"
          (handleSend freshState [frameString (SSEData.chunk "Partial")] none 1000).1.store).map
        (fun l => l.map (fun m => m.content)) = some ["ask", "Partial"]) := by
  decide

/-- C5 evaluation at the failing input: an explicit `error("boom")`
event with no prior chunk produces no synthetic assistant message at
all (the message list still holds only the user message) and surfaces
no error, because the `throw new Error(data.message)` is caught by the
SSE-parse catch and only logged. -/
theorem error_event_swallowed_on_failing_input :
    ((handleSend freshState [frameString (SSEData.error "boom")] none 1000).1.messages.map
        (fun m => m.role) = ["user"]) ∧
      ((handleSend freshState [frameString (SSEData.error "boom")] none 1000).1.error =
        none) := by
  decide

/-- C8: while a turn is in flight (`isThinking` is set), a second
submit is rejected: the component state (messages, store and all) is
returned unchanged and no second stream is opened. -/
theorem second_submit_rejected (st : ChatState) (reads : List String)
    (readFailure : Option String) (now : Int) (h : st.isThinking = true) :
    handleSend st reads readFailure now = (st, false) := by
  simp [handleSend, h]

/-- C8 witness. -/
theorem second_submit_rejected_witness :
    ({ freshState with isThinking := true } : ChatState).isThinking = true ∧
      handleSend { freshState with isThinking := true } ["data: x\n\n"] none 5 =
        ({ freshState with isThinking := true }, false) :=
  ⟨rfl, second_submit_rejected _ _ _ _ rfl⟩

/-- C10: when the input is empty or consists only of whitespace, its
trim is empty, so `handleSend` performs no state change at all — no
user message is appended, the store is untouched — and no stream is
opened. -/
theorem whitespace_input_is_no_op (st : ChatState) (reads : List String)
    (readFailure : Option String) (now : Int)
    (h : ∀ c ∈ st.input.data, jsWhitespace c = true) :
    handleSend st reads readFailure now = (st, false) := by
  have htrim : jsTrim st.input = "" := by
    have h1 : st.input.data.dropWhile jsWhitespace = [] :=
      List.dropWhile_eq_nil_iff.mpr h
    simp [jsTrim, h1]
  simp [handleSend, htrim]

/-- C10 witness. -/
theorem whitespace_input_is_no_op_witness :
    (∀ c ∈ ({ freshState with input := " \t " } : ChatState).input.data,
        jsWhitespace c = true) ∧
      handleSend { freshState with input := " \t " } ["data: x\n\n"] none 5 =
        ({ freshState with input := " \t " }, false) :=
  ⟨by decide, whitespace_input_is_no_op _ ["data: x\n\n"] none 5 (by decide)⟩

lemma stripLit_self (lit x : List Char) : stripLit lit (lit ++ x) = some x := by
  induction lit with
  | nil => rfl
  | cons c cs ih => simp [stripLit, ih]

lemma escapeL_cons (c : Char) (l : List Char) :
    escapeL (c :: l) = escChar c ++ escapeL l := rfl

lemma escapeL_no_newline (l : List Char) : '\n' ∉ escapeL l := by
  induction l with
  | nil => simp [escapeL]
  | cons c cs ih =>
      rw [escapeL_cons]
      intro hmem
      rcases List.mem_append.mp hmem with h | h
      · revert h
        simp only [escChar]
        split
        · simp
        · split
          · simp
          · split
            · simp
            · split
              · simp
              · split
                · simp
                · rename_i h1 h2 h3 h4 h5
                  simp only [List.mem_singleton]
                  intro hc
                  exact h3 hc.symm
      · exact ih h

lemma takeStr_escapeL (l rest : List Char) :
    takeStr (escapeL l ++ '"' :: rest) = some (l, rest) := by
  induction l with
  | nil =>
      simp only [escapeL, List.foldr_nil, List.nil_append]
      rw [takeStr.eq_def]
      simp
  | cons c cs ih =>
      rw [escapeL_cons, List.append_assoc]
      by_cases h1 : c = '"'
      · subst h1
        simp [escChar, takeStr, unescChar, ih]
      · by_cases h2 : c = '\\'
        · subst h2
          simp [escChar, takeStr, unescChar, ih, h1]
        · by_cases h3 : c = '\n'
          · subst h3
            simp [escChar, takeStr, unescChar, ih, h1, h2]
          · by_cases h4 : c = '\r'
            · subst h4
              simp [escChar, takeStr, unescChar, ih, h1, h2, h3]
            · by_cases h5 : c = '\t'
              · subst h5
                simp [escChar, takeStr, unescChar, ih, h1, h2, h3, h4]
              · simp only [escChar, if_neg h1, if_neg h2, if_neg h3, if_neg h4, if_neg h5,
                  List.singleton_append]
                rw [takeStr.eq_def]
                simp [h1, h2, ih]

lemma stripLit_status_of_chunk (x : List Char) :
    stripLit litStatus (litChunk ++ x) = none := rfl

lemma stripLit_status_of_sources (x : List Char) :
    stripLit litStatus (litSources ++ x) = none := rfl

lemma stripLit_chunk_of_sources (x : List Char) :
    stripLit litChunk (litSources ++ x) = none := rfl

lemma stripLit_status_of_error (x : List Char) :
    stripLit litStatus (litError ++ x) = none := rfl

lemma stripLit_chunk_of_error (x : List Char) :
    stripLit litChunk (litError ++ x) = none := rfl

lemma stripLit_sources_of_error (x : List Char) :
    stripLit litSources (litError ++ x) = none := rfl

lemma stripLit_done_of_error (x : List Char) :
    stripLit litDone (litError ++ x) = none := rfl

/-- Parsing inverts serialization: every wire event round-trips
through the decoder. -/
lemma parseData_renderData (e : SSEData) : parseData (renderData e) = some e := by
  cases e with
  | status m =>
      have h1 : stripLit litStatus (litStatus ++ (escapeL m.data ++ litEnd)) =
          some (escapeL m.data ++ litEnd) := stripLit_self _ _
      have h2 : takeStr (escapeL m.data ++ '"' :: ['\x7d']) = some (m.data, ['\x7d']) :=
        takeStr_escapeL m.data ['\x7d']
      simp only [renderData, parseData, List.append_assoc] at h1 ⊢
      rw [h1]
      simp [litEnd, h2]
  | chunk c =>
      have h0 : stripLit litStatus (litChunk ++ (escapeL c.data ++ litEnd)) = none :=
        stripLit_status_of_chunk _
      have h1 : stripLit litChunk (litChunk ++ (escapeL c.data ++ litEnd)) =
          some (escapeL c.data ++ litEnd) := stripLit_self _ _
      have h2 : takeStr (escapeL c.data ++ '"' :: ['\x7d']) = some (c.data, ['\x7d']) :=
        takeStr_escapeL c.data ['\x7d']
      simp only [renderData, parseData, List.append_assoc] at h0 h1 ⊢
      rw [h0, h1]
      simp [litEnd, h2]
  | sources s =>
      have h0 : stripLit litStatus (litSources ++ (s.data ++ ['\x7d'])) = none :=
        stripLit_status_of_sources _
      have h0b : stripLit litChunk (litSources ++ (s.data ++ ['\x7d'])) = none :=
        stripLit_chunk_of_sources _
      have h1 : stripLit litSources (litSources ++ (s.data ++ ['\x7d'])) =
          some (s.data ++ ['\x7d']) := stripLit_self _ _
      simp only [renderData, parseData, List.append_assoc] at h0 h0b h1 ⊢
      rw [h0, h0b, h1]
      simp [List.getLast?_concat, List.dropLast_concat]
  | done => rfl
  | error m =>
      have h0 : stripLit litStatus (litError ++ (escapeL m.data ++ litEnd)) = none :=
        stripLit_status_of_error _
      have h0b : stripLit litChunk (litError ++ (escapeL m.data ++ litEnd)) = none :=
        stripLit_chunk_of_error _
      have h0c : stripLit litSources (litError ++ (escapeL m.data ++ litEnd)) = none :=
        stripLit_sources_of_error _
      have h0d : stripLit litDone (litError ++ (escapeL m.data ++ litEnd)) = none :=
        stripLit_done_of_error _
      have h1 : stripLit litError (litError ++ (escapeL m.data ++ litEnd)) =
          some (escapeL m.data ++ litEnd) := stripLit_self _ _
      have h2 : takeStr (escapeL m.data ++ '"' :: ['\x7d']) = some (m.data, ['\x7d']) :=
        takeStr_escapeL m.data ['\x7d']
      simp only [renderData, parseData, List.append_assoc] at h0 h0b h0c h0d h1 ⊢
      rw [h0, h0b, h0c, h0d, h1]
      simp [litEnd, h2]

/-- Wire well-formedness of one event: a `sources` payload is a
single-line JSON array text (the server emits each event on one
line), all other payloads are escaped by serialization anyway. -/
def wireOk (e : SSEData) : Bool :=
  match e with
  | .sources s => decide ('\n' ∉ s.data)
  | _ => true

lemma renderData_no_newline (e : SSEData) (h : wireOk e = true) :
    '\n' ∉ renderData e := by
  cases e with
  | status m =>
      intro hmem
      simp only [renderData, List.mem_append] at hmem
      rcases hmem with (h1 | h2) | h3
      · exact absurd h1 (by decide)
      · exact escapeL_no_newline _ h2
      · exact absurd h3 (by decide)
  | chunk c =>
      intro hmem
      simp only [renderData, List.mem_append] at hmem
      rcases hmem with (h1 | h2) | h3
      · exact absurd h1 (by decide)
      · exact escapeL_no_newline _ h2
      · exact absurd h3 (by decide)
  | sources s =>
      intro hmem
      simp only [renderData, List.mem_append] at hmem
      rcases hmem with (h1 | h2) | h3
      · exact absurd h1 (by decide)
      · exact (of_decide_eq_true h) h2
      · exact absurd h3 (by decide)
  | done =>
      intro hmem
      exact absurd hmem (by decide)
  | error m =>
      intro hmem
      simp only [renderData, List.mem_append] at hmem
      rcases hmem with (h1 | h2) | h3
      · exact absurd h1 (by decide)
      · exact escapeL_no_newline _ h2
      · exact absurd h3 (by decide)

lemma line_no_newline (e : SSEData) (h : wireOk e = true) :
    ∀ c ∈ litData ++ renderData e, c ≠ '\n' := by
  intro c hc hcn
  subst hcn
  rcases List.mem_append.mp hc with h1 | h2
  · exact absurd h1 (by decide)
  · exact renderData_no_newline e h h2

lemma split2_prepend (p rest : List Char) (h : ∀ c ∈ p, c ≠ '\n') :
    split2 (p ++ '\n' :: '\n' :: rest) = p :: split2 rest := by
  induction p with
  | nil => simp [split2]
  | cons c p ih =>
      have hc : c ≠ '\n' := h c (List.mem_cons_self c p)
      have hrec := ih (fun x hx => h x (List.mem_cons_of_mem c hx))
      cases p with
      | nil =>
          simp only [List.nil_append] at hrec
          simp only [List.cons_append, List.nil_append]
          rw [split2.eq_def]
          simp [hc, split2]
      | cons c2 p' =>
          simp only [List.cons_append] at hrec ⊢
          rw [split2.eq_def]
          simp only [hc, false_and, if_false]
          rw [hrec]

lemma split2_flatten_frames (g : List SSEData) (h : ∀ e ∈ g, wireOk e = true) :
    split2 ((g.map frameL).flatten) =
      g.map (fun e => litData ++ renderData e) ++ [[]] := by
  induction g with
  | nil => simp [split2]
  | cons e g ih =>
      simp only [List.map_cons, List.flatten_cons]
      have he : frameL e ++ (g.map frameL).flatten =
          (litData ++ renderData e) ++ '\n' :: '\n' :: (g.map frameL).flatten := by
        simp [frameL, List.append_assoc]
      rw [he, split2_prepend _ _ (line_no_newline e (h e (List.mem_cons_self e g)))]
      rw [ih (fun x hx => h x (List.mem_cons_of_mem e hx))]
      simp

lemma processLine_frame (aid now : Int) (acc : StreamAcc) (e : SSEData) :
    processLine aid now acc (litData ++ renderData e) = processData aid now e acc := by
  simp [processLine, stripLit_self, parseData_renderData]

lemma processLine_empty (aid now : Int) (acc : StreamAcc) :
    processLine aid now acc [] = acc := rfl

lemma processRead_frames (aid now : Int) (acc : StreamAcc) (g : List SSEData)
    (h : ∀ e ∈ g, wireOk e = true) :
    processRead aid now acc ((g.map frameL).flatten) =
      g.foldl (fun a e => processData aid now e a) acc := by
  unfold processRead
  rw [split2_flatten_frames g h, List.foldl_append]
  simp only [List.foldl_cons, List.foldl_nil, processLine_empty]
  rw [List.foldl_map]
  simp [processLine_frame]

lemma fold_processRead_frames (aid now : Int) (acc : StreamAcc)
    (gs : List (List SSEData)) (hok : ∀ e ∈ gs.flatten, wireOk e = true) :
    gs.foldl (fun a g => processRead aid now a ((g.map frameL).flatten)) acc =
      gs.flatten.foldl (fun a e => processData aid now e a) acc := by
  induction gs generalizing acc with
  | nil => simp
  | cons g gs ih =>
      simp only [List.foldl_cons, List.flatten_cons, List.foldl_append]
      rw [processRead_frames aid now acc g
        (fun e he => hok e (by simp [List.mem_flatten]; exact Or.inl he))]
      exact ih _ (fun e he => hok e (by simp only [List.flatten_cons, List.mem_append]; exact Or.inr he))

/-- Ordered concatenation of the fragments carried by the `chunk`
events of an event sequence. -/
def chunksConcat : List SSEData → String
  | [] => ""
  | SSEData.chunk c :: es => c ++ chunksConcat es
  | _ :: es => chunksConcat es

/-- Whether an event sequence contains at least one `chunk` event. -/
def hasChunk : List SSEData → Bool
  | [] => false
  | SSEData.chunk _ :: _ => true
  | _ :: es => hasChunk es

/-- Whether an event is a `sources` event. -/
def isSourcesEv : SSEData → Bool
  | SSEData.sources _ => true
  | _ => false

/-- Observable summary of the loop state: the `messageAdded` flag, the
accumulated content, and the sources attached to the materialized
message (if any). -/
def obsStep (o : Bool × String × Option String) (e : SSEData) :
    Bool × String × Option String :=
  match e with
  | .chunk c => (true, o.2.1 ++ c, if o.1 then o.2.2 else none)
  | .sources s => if o.1 then (o.1, o.2.1, some s) else o
  | _ => o

/-- The assistant message held by the loop once materialized. -/
def assistantMsg (aid now : Int) (content : String) (srcs : Option String) : Message :=
  { id := aid, role := "assistant", content := content, timestamp := now,
    sources := srcs, confidence := none }

/-- Relation between the concrete loop state and its observable
summary, over a base message list none of whose ids collide with the
assistant message id. -/
def accMatches (aid now : Int) (base : List Message) (acc : StreamAcc)
    (o : Bool × String × Option String) : Prop :=
  acc.messageAdded = o.1 ∧ acc.accumulatedContent = o.2.1 ∧
    acc.messages = (if o.1 then base ++ [assistantMsg aid now o.2.1 o.2.2] else base)

lemma map_preserves_base (aid : Int) (base : List Message) (f : Message → Message)
    (h : ∀ m ∈ base, m.id ≠ aid) :
    base.map (fun msg => if msg.id = aid then f msg else msg) = base := by
  induction base with
  | nil => rfl
  | cons m rest ih =>
      simp only [List.map_cons]
      rw [if_neg (h m (List.mem_cons_self m rest))]
      rw [ih (fun x hx => h x (List.mem_cons_of_mem m hx))]

lemma accMatches_step (aid now : Int) (base : List Message) (acc : StreamAcc)
    (o : Bool × String × Option String) (e : SSEData)
    (hbase : ∀ m ∈ base, m.id ≠ aid)
    (h : accMatches aid now base acc o) :
    accMatches aid now base (processData aid now e acc) (obsStep o e) := by
  obtain ⟨h1, h2, h3⟩ := h
  obtain ⟨b, cont, srcs⟩ := o
  simp only at h1 h2 h3
  cases e with
  | status m =>
      exact ⟨h1, h2, h3⟩
  | chunk c =>
      cases b with
      | false =>
          simp only [if_neg (Bool.false_ne_true)] at h3
          refine ⟨?_, ?_, ?_⟩ <;>
            simp [processData, obsStep, h1, h2, h3, assistantMsg]
      | true =>
          simp only [if_pos rfl] at h3
          refine ⟨?_, ?_, ?_⟩ <;>
            simp [processData, obsStep, h1, h2, h3, List.map_append,
              map_preserves_base aid base _ hbase, assistantMsg]
  | sources s =>
      cases b with
      | false =>
          simp only [if_neg (Bool.false_ne_true)] at h3
          refine ⟨?_, ?_, ?_⟩ <;>
            simp [processData, obsStep, h1, h2, h3]
      | true =>
          simp only [if_pos rfl] at h3
          refine ⟨?_, ?_, ?_⟩ <;>
            simp [processData, obsStep, h1, h2, h3, List.map_append,
              map_preserves_base aid base _ hbase, assistantMsg]
  | done =>
      exact ⟨h1, h2, h3⟩
  | error m =>
      exact ⟨h1, h2, h3⟩

lemma accMatches_fold (aid now : Int) (base : List Message) (es : List SSEData)
    (acc : StreamAcc) (o : Bool × String × Option String)
    (hbase : ∀ m ∈ base, m.id ≠ aid)
    (h : accMatches aid now base acc o) :
    accMatches aid now base (es.foldl (fun a e => processData aid now e a) acc)
      (es.foldl obsStep o) := by
  induction es generalizing acc o with
  | nil => exact h
  | cons e es ih =>
      exact ih _ _ (accMatches_step aid now base acc o e hbase h)

lemma obsFold_added (es : List SSEData) (o : Bool × String × Option String) :
    (es.foldl obsStep o).1 = (o.1 || hasChunk es) := by
  induction es generalizing o with
  | nil => simp [hasChunk]
  | cons e es ih =>
      cases e with
      | chunk c => simp [obsStep, hasChunk, ih]
      | sources s =>
          simp only [List.foldl_cons, obsStep]
          split <;> simp [hasChunk, ih]
      | status m => simp [obsStep, hasChunk, ih]
      | done => simp [obsStep, hasChunk, ih]
      | error m => simp [obsStep, hasChunk, ih]

lemma obsFold_content (es : List SSEData) (o : Bool × String × Option String) :
    (es.foldl obsStep o).2.1 = o.2.1 ++ chunksConcat es := by
  induction es generalizing o with
  | nil => simp [chunksConcat]
  | cons e es ih =>
      cases e with
      | chunk c => simp [obsStep, chunksConcat, ih, String.append_assoc]
      | sources s =>
          simp only [List.foldl_cons, obsStep]
          split <;> simp [chunksConcat, ih]
      | status m => simp [obsStep, chunksConcat, ih]
      | done => simp [obsStep, chunksConcat, ih]
      | error m => simp [obsStep, chunksConcat, ih]

lemma obsFold_srcs_none (es : List SSEData) (o : Bool × String × Option String)
    (h : ∀ e ∈ es, isSourcesEv e = false) (h0 : o.2.2 = none) :
    (es.foldl obsStep o).2.2 = none := by
  induction es generalizing o with
  | nil => exact h0
  | cons e es ih =>
      have hes : ∀ x ∈ es, isSourcesEv x = false :=
        fun x hx => h x (List.mem_cons_of_mem e hx)
      cases e with
      | chunk c =>
          refine ih _ hes ?_
          simp [obsStep, h0]
      | sources s =>
          exact absurd (h _ (List.mem_cons_self _ _)) (by simp [isSourcesEv])
      | status m => exact ih _ hes h0
      | done => exact ih _ hes h0
      | error m => exact ih _ hes h0

lemma obsFold_id_of_no_chunk (es : List SSEData) (o : Bool × String × Option String)
    (h : hasChunk es = false) (h0 : o.1 = false) :
    es.foldl obsStep o = o := by
  induction es generalizing o with
  | nil => rfl
  | cons e es ih =>
      cases e with
      | chunk c => simp [hasChunk] at h
      | sources s =>
          simp only [List.foldl_cons, obsStep, h0]
          exact ih _ (by simpa [hasChunk] using h) h0
      | status m => exact ih _ (by simpa [hasChunk] using h) h0
      | done => exact ih _ (by simpa [hasChunk] using h) h0
      | error m => exact ih _ (by simpa [hasChunk] using h) h0

lemma hasChunk_append (a b : List SSEData) :
    hasChunk (a ++ b) = (hasChunk a || hasChunk b) := by
  induction a with
  | nil => simp [hasChunk]
  | cons e a ih =>
      cases e with
      | chunk c => simp [hasChunk]
      | sources s => simp [hasChunk, ih]
      | status m => simp [hasChunk, ih]
      | done => simp [hasChunk, ih]
      | error m => simp [hasChunk, ih]

/-- One `reader.read()` result that delivers a group of whole frames:
the bytes of a read are exactly the concatenation of complete
delimiter-terminated frames. -/
def frameRead (g : List SSEData) : String := ⟨(g.map frameL).flatten⟩

lemma frameRead_data (g : List SSEData) :
    (frameRead g).data = (g.map frameL).flatten := rfl

lemma chunksConcat_append (a b : List SSEData) :
    chunksConcat (a ++ b) = chunksConcat a ++ chunksConcat b := by
  induction a with
  | nil => simp [chunksConcat]
  | cons e a ih =>
      cases e with
      | chunk c => simp [chunksConcat, ih, String.append_assoc]
      | sources s => simp [chunksConcat, ih]
      | status m => simp [chunksConcat, ih]
      | done => simp [chunksConcat, ih]
      | error m => simp [chunksConcat, ih]

lemma chunksConcat_of_no_chunk (es : List SSEData) (h : hasChunk es = false) :
    chunksConcat es = "" := by
  induction es with
  | nil => rfl
  | cons e es ih =>
      cases e with
      | chunk c => simp [hasChunk] at h
      | sources s => exact ih (by simpa [hasChunk] using h)
      | status m => exact ih (by simpa [hasChunk] using h)
      | done => exact ih (by simpa [hasChunk] using h)
      | error m => exact ih (by simpa [hasChunk] using h)

/-- Full characterization of `handleSend` on a submit that streams
frame-aligned reads and closes normally: the user message is appended,
the assistant message (when at least one chunk arrived) carries the
observable fold of the event sequence, the thinking flags are cleared,
and the final message list is persisted to the session's store
record. -/
lemma handleSend_frames_spec (st : ChatState) (now : Int) (gs : List (List SSEData))
    (hin : ¬ jsTrim st.input = "") (hth : st.isThinking = false)
    (hid : ∀ m ∈ st.messages, m.id ≠ now + 1)
    (hok : ∀ e ∈ gs.flatten, wireOk e = true) :
    handleSend st (gs.map frameRead) none now =
      ({ messages :=
           (if (gs.flatten.foldl obsStep (false, "", none)).1 then
             (st.messages ++ [userMessageOf st now]) ++
               [assistantMsg (now + 1) now
                 (gs.flatten.foldl obsStep (false, "", none)).2.1
                 (gs.flatten.foldl obsStep (false, "", none)).2.2]
           else st.messages ++ [userMessageOf st now])
         input := ""
         isThinking := false
         thinkingStatus := ""
         sessionId := st.sessionId
         error := none
         store := saveChatHistory st.sessionId
           (if (gs.flatten.foldl obsStep (false, "", none)).1 then
             (st.messages ++ [userMessageOf st now]) ++
               [assistantMsg (now + 1) now
                 (gs.flatten.foldl obsStep (false, "", none)).2.1
                 (gs.flatten.foldl obsStep (false, "", none)).2.2]
           else st.messages ++ [userMessageOf st now]) now st.store }, true) := by
  have hcond : ¬ (jsTrim st.input = "" ∨ st.isThinking = true) := by
    simp [hin, hth]
  have hbase : ∀ m ∈ st.messages ++ [userMessageOf st now], m.id ≠ now + 1 := by
    intro m hm
    rcases List.mem_append.mp hm with h | h
    · exact hid m h
    · rcases List.mem_singleton.mp h with rfl
      simp only [userMessageOf]
      omega
  obtain ⟨hA, hC, hM⟩ := accMatches_fold (now + 1) now
    (st.messages ++ [userMessageOf st now]) gs.flatten
    { accumulatedContent := "", sources := "[]", messageAdded := false,
      messages := st.messages ++ [userMessageOf st now],
      isThinking := true, thinkingStatus := "Initializing..." }
    (false, "", none) hbase ⟨rfl, rfl, rfl⟩
  simp only [handleSend]
  rw [if_neg hcond]
  simp only [List.foldl_map, frameRead_data]
  rw [fold_processRead_frames (now + 1) now _ gs hok]
  rw [hM]

/-- C1 (amended): when every frame's bytes arrive within a single read
(reads are split only at frame boundaries), the final content of the
assistant message produced by `handleSend` equals the ordered
concatenation of the fragments carried by the `chunk` events.  Frames
split across reads are not recovered (see the counterexample), so the
guarantee holds for frame-aligned reads. -/
theorem content_equals_chunk_concat_for_frame_aligned_reads
    (st : ChatState) (now : Int) (gs : List (List SSEData))
    (hin : ¬ jsTrim st.input = "") (hth : st.isThinking = false)
    (hid : ∀ m ∈ st.messages, m.id ≠ now + 1)
    (hok : ∀ e ∈ gs.flatten, wireOk e = true)
    (hch : hasChunk gs.flatten = true) :
    ∃ srcs, (handleSend st (gs.map frameRead) none now).1.messages =
      st.messages ++ [userMessageOf st now,
        assistantMsg (now + 1) now (chunksConcat gs.flatten) srcs] := by
  refine ⟨(gs.flatten.foldl obsStep (false, "", none)).2.2, ?_⟩
  rw [handleSend_frames_spec st now gs hin hth hid hok]
  have ha : (gs.flatten.foldl obsStep (false, "", none)).1 = true := by
    rw [obsFold_added]
    simp [hch]
  have hc : (gs.flatten.foldl obsStep (false, "", none)).2.1 =
      chunksConcat gs.flatten := by
    rw [obsFold_content]
    exact String.empty_append _
  simp only [ha, if_pos, hc, List.append_assoc, List.singleton_append]

/-- C1 (amended) witness. -/
theorem content_equals_chunk_concat_witness :
    ∃ srcs,
      (handleSend freshState
        ([[SSEData.chunk "he"], [SSEData.chunk "llo"]].map frameRead) none 1000).1.messages =
      freshState.messages ++ [userMessageOf freshState 1000,
        assistantMsg (1000 + 1) 1000
          (chunksConcat ([[SSEData.chunk "he"], [SSEData.chunk "llo"]] : List (List SSEData)).flatten)
          srcs] :=
  content_equals_chunk_concat_for_frame_aligned_reads freshState 1000
    [[SSEData.chunk "he"], [SSEData.chunk "llo"]]
    (by decide) rfl (by decide) (by decide) (by decide)

/-- C2 (amended): a `sources` event arriving before the first `chunk`
is dropped, not buffered: when every `sources` event of the turn
precedes the first `chunk`, the eventual assistant message carries no
sources at all.  Sources are attached only when a `sources` event
arrives after the first `chunk`. -/
theorem sources_only_before_first_chunk_never_attached
    (st : ChatState) (now : Int) (es1 es2 : List SSEData)
    (hin : ¬ jsTrim st.input = "") (hth : st.isThinking = false)
    (hid : ∀ m ∈ st.messages, m.id ≠ now + 1)
    (hok : ∀ e ∈ [es1 ++ es2].flatten, wireOk e = true)
    (h1 : hasChunk es1 = false)
    (h2 : ∀ e ∈ es2, isSourcesEv e = false)
    (hch : hasChunk es2 = true) :
    (handleSend st [frameRead (es1 ++ es2)] none now).1.messages =
      st.messages ++ [userMessageOf st now,
        assistantMsg (now + 1) now (chunksConcat (es1 ++ es2)) none] := by
  have hmap : ([es1 ++ es2] : List (List SSEData)).map frameRead =
      [frameRead (es1 ++ es2)] := rfl
  rw [← hmap, handleSend_frames_spec st now [es1 ++ es2] hin hth hid hok]
  have hflat : ([es1 ++ es2] : List (List SSEData)).flatten = es1 ++ es2 := by simp
  rw [hflat]
  have hsplit : (es1 ++ es2).foldl obsStep (false, "", none) =
      es2.foldl obsStep (false, "", none) := by
    rw [List.foldl_append, obsFold_id_of_no_chunk es1 (false, "", none) h1 rfl]
  rw [hsplit]
  have ha : (es2.foldl obsStep (false, "", none)).1 = true := by
    rw [obsFold_added]
    simp [hch]
  have hc : (es2.foldl obsStep (false, "", none)).2.1 = chunksConcat (es1 ++ es2) := by
    rw [obsFold_content, String.empty_append, chunksConcat_append,
      chunksConcat_of_no_chunk es1 h1, String.empty_append]
  have hs : (es2.foldl obsStep (false, "", none)).2.2 = none :=
    obsFold_srcs_none es2 (false, "", none) h2 rfl
  simp only [ha, if_pos, hc, hs, List.append_assoc, List.singleton_append]

/-- C2 (amended) witness. -/
theorem sources_only_before_first_chunk_witness :
    (handleSend freshState
        [frameRead ([SSEData.sources "[\"a.pdf\"]"] ++ [SSEData.chunk "hi"])] none 1000).1.messages =
      freshState.messages ++ [userMessageOf freshState 1000,
        assistantMsg (1000 + 1) 1000
          (chunksConcat ([SSEData.sources "[\"a.pdf\"]"] ++ [SSEData.chunk "hi"])) none] :=
  sources_only_before_first_chunk_never_attached freshState 1000
    [SSEData.sources "[\"a.pdf\"]"] [SSEData.chunk "hi"]
    (by decide) rfl (by decide) (by decide) (by decide) (by decide) (by decide)

/-- C4 (amended): when the stream delivers `chunk(s)` and the
transport then closes normally without a `done` or `error` event, the
resulting assistant message content is exactly the accumulated partial
text `s` — no failure notice is appended, a clean close being treated
as success — the turn returns to idle, and the message list including
the partial message is persisted to the session. -/
theorem clean_close_preserves_partial_without_notice
    (st : ChatState) (now : Int) (s : String)
    (hin : ¬ jsTrim st.input = "") (hth : st.isThinking = false)
    (hid : ∀ m ∈ st.messages, m.id ≠ now + 1) :
    (handleSend st [frameString (SSEData.chunk s)] none now).1.messages =
      (st.messages ++ [userMessageOf st now, assistantMsg (now + 1) now s none]) ∧
    (handleSend st [frameString (SSEData.chunk s)] none now).1.isThinking = false ∧
    loadSession st.sessionId
        (handleSend st [frameString (SSEData.chunk s)] none now).1.store =
      some (st.messages ++ [userMessageOf st now, assistantMsg (now + 1) now s none]) := by
  have hframe : [frameString (SSEData.chunk s)] =
      ([[SSEData.chunk s]] : List (List SSEData)).map frameRead := by
    simp [frameString, frameRead, frameL]
  have hok : ∀ e ∈ ([[SSEData.chunk s]] : List (List SSEData)).flatten, wireOk e = true := by
    intro e he
    simp only [List.flatten, List.append_nil] at he
    rcases List.mem_singleton.mp (by simpa using he) with rfl
    rfl
  rw [hframe, handleSend_frames_spec st now [[SSEData.chunk s]] hin hth hid hok]
  have hflat : ([[SSEData.chunk s]] : List (List SSEData)).flatten = [SSEData.chunk s] := by
    simp
  rw [hflat]
  have hfold : ([SSEData.chunk s] : List SSEData).foldl obsStep (false, "", none) =
      (true, s, none) := by
    simp [obsStep, String.empty_append]
  rw [hfold]
  refine ⟨by simp, rfl, ?_⟩
  simp only [if_pos]
  rw [save_then_load_identity _ _ _ _ (by simp)]
  simp [List.append_assoc]

/-- C4 (amended) witness. -/
theorem clean_close_preserves_partial_witness :
    (handleSend freshState [frameString (SSEData.chunk "Partial")] none 1000).1.messages =
      (freshState.messages ++ [userMessageOf freshState 1000,
        assistantMsg (1000 + 1) 1000 "Partial" none]) ∧
    (handleSend freshState [frameString (SSEData.chunk "Partial")] none 1000).1.isThinking =
      false ∧
    loadSession freshState.sessionId
        (handleSend freshState [frameString (SSEData.chunk "Partial")] none 1000).1.store =
      some (freshState.messages ++ [userMessageOf freshState 1000,
        assistantMsg (1000 + 1) 1000 "Partial" none]) :=
  clean_close_preserves_partial_without_notice freshState 1000 "Partial"
    (by decide) rfl (by decide)
